import Mathlib

/-!
Verification of the `HgRepositoryClient` repository-state cache
(`pkg/nuclide-hg-repository-client/lib/HgRepositoryClient.js`).

The shallow embedding below translates the client-side state (the
`_sharedMembers` record) and the pure content of its cache-manipulating
operations into Lean.  Backend RPC calls (`HgService`) and the RxJS
plumbing are abstracted by explicit outcome arguments: each embedded
operation takes the outcome of the backend fetches it performs as an
`Except`/`Option` parameter and returns the resulting client state (and,
where relevant, the emitted events), exactly following the control flow
of the source.
-/

namespace HgClient

/-- Modelled from the spec: the fixed status-code enumeration of
`nuclide-hg-rpc/lib/hg-constants.js` (`StatusCodeNumber`), which is not
under `src/`.  The spec lists the codes: clean, modified, added,
untracked, missing, removed, ignored. -/
inductive StatusCodeNumber
  | added
  | clean
  | ignored
  | missing
  | modified
  | removed
  | untracked
deriving DecidableEq, Repr

/-- Modelled from the spec: the status-code-id enumeration of
`nuclide-hg-rpc/lib/hg-constants.js` (`StatusCodeId`), not under `src/`;
one id per status code. -/
inductive StatusCodeId
  | added
  | clean
  | ignored
  | missing
  | modified
  | removed
  | untracked
deriving DecidableEq, Repr

/-- Modelled from the spec: the `StatusCodeIdToNumber` translation table of
`hg-constants.js` (not under `src/`), mapping each status id to the
corresponding numeric status code. -/
def StatusCodeIdToNumber : StatusCodeId → StatusCodeNumber
  | .added => .added
  | .clean => .clean
  | .ignored => .ignored
  | .missing => .missing
  | .modified => .modified
  | .removed => .removed
  | .untracked => .untracked

/-- One line-level diff hunk (`LineDiff` of `nuclide-hg-rpc`; the structure
of a hunk is irrelevant to the claims, only its presence in `DiffInfo`). -/
structure LineDiff where
  oldStart : Nat
  oldLines : Nat
  newStart : Nat
  newLines : Nat
deriving DecidableEq, Repr

/-- Per-path diff record (`DiffInfo` of `nuclide-hg-rpc`): added/deleted
line counts plus the ordered hunks. -/
structure DiffInfo where
  added : Nat
  deleted : Nat
  lineDiffs : List LineDiff
deriving DecidableEq, Repr

/-- Bookmark record (`BookmarkInfo`): the bookmark name and its active flag. -/
structure BookmarkInfo where
  bookmark : String
  active : Bool
deriving DecidableEq, Repr

/-- Value held by the `bookmarks` BehaviorSubject: a loading flag plus the
current bookmark list. -/
structure BookmarksValue where
  isLoading : Bool
  bookmarks : List BookmarkInfo
deriving DecidableEq, Repr

/-- Change list at a revision (`RevisionFileChanges` of `nuclide-hg-rpc`);
its structure is irrelevant to the claims, so only a path list is kept. -/
structure RevisionFileChanges where
  all : List String
deriving DecidableEq, Repr

/-- JS string truthiness test used by the `!filePath` guards: a nullable
string is falsy when it is `null`/`undefined` (`none`) or empty. -/
def strFalsy : Option String → Bool
  | none => true
  | some s => s = ""

/-- JS `String.prototype.indexOf(pre) === 0`, i.e. `pre` is a prefix of `s`. -/
def strStartsWith (s pre : String) : Bool :=
  pre.data.isPrefixOf s.data

/-- Lookup in an insertion-ordered association list, the embedding of
`Map.prototype.get`. -/
def mapGet {α β : Type} [DecidableEq α] : List (α × β) → α → Option β
  | [], _ => none
  | (k', v) :: rest, k => if k' = k then some v else mapGet rest k

/-- Write to an insertion-ordered association list, the embedding of
`Map.prototype.set`: replace in place if the key exists, else append. -/
def mapSet {α β : Type} [DecidableEq α] : List (α × β) → α → β → List (α × β)
  | [], k, v => [(k, v)]
  | (k', v') :: rest, k, v =>
    if k' = k then (k, v) :: rest else (k', v') :: mapSet rest k v

/-- Remove a key from an association list, the embedding of
`Map.prototype.delete`. -/
def mapDelete {α β : Type} [DecidableEq α] : List (α × β) → α → List (α × β)
  | [], _ => []
  | (k', v) :: rest, k =>
    if k' = k then mapDelete rest k else (k', v) :: mapDelete rest k

/-- Modelled from the spec: the `lru-cache` library type used for the three
bounded caches (the library is not under `src/`).  The spec describes it as
a fixed-capacity recency-ordered cache with least-recently-used eviction.
`entries` is kept most-recently-used first. -/
structure LRU (α β : Type) where
  max : Nat
  entries : List (α × β)
deriving DecidableEq, Repr

namespace LRU

/-- Cache lookup: a hit returns the value and moves the entry to the
most-recently-used position; a miss leaves the cache unchanged. -/
def get {α β : Type} [DecidableEq α] (c : LRU α β) (k : α) : Option β × LRU α β :=
  match mapGet c.entries k with
  | none => (none, c)
  | some v => (some v, { c with entries := (k, v) :: mapDelete c.entries k })

/-- Cache write: (re)insert the key at the most-recently-used position,
then trim to capacity, dropping least-recently-used entries. -/
def set {α β : Type} [DecidableEq α] (c : LRU α β) (k : α) (v : β) : LRU α β :=
  { c with entries := ((k, v) :: mapDelete c.entries k).take c.max }

/-- Empty the cache (`reset()`). -/
def reset {α β : Type} (c : LRU α β) : LRU α β :=
  { c with entries := [] }

/-- One cache operation, for stating invariants over operation sequences. -/
inductive Op (α β : Type)
  | get (k : α)
  | set (k : α) (v : β)
  | reset

/-- Apply one cache operation. -/
def applyOp {α β : Type} [DecidableEq α] (c : LRU α β) : Op α β → LRU α β
  | .get k => (c.get k).2
  | .set k v => c.set k v
  | .reset => c.reset

/-- Apply a sequence of cache operations in order. -/
def applyAll {α β : Type} [DecidableEq α] (c : LRU α β) (ops : List (Op α β)) : LRU α β :=
  ops.foldl applyOp c

end LRU

/-- Events emitted on the client's `Emitter`. -/
inductive RepoEvent
  | didDestroy
  | didChangeStatuses
  | didChangeConflictState
deriving DecidableEq, Repr

/-- The `_sharedMembers` record of `HgRepositoryClient`: the single shared
mutable state.  Fields that only hold handles to external collaborators
(`service`, `emitter`, the Rx subjects, `revisionsCache`,
`revisionStatusCache`, `projectDirectory`, `originURL`) are represented
only where a claim observes them: `subscriptionsDisposed` models the
disposed state of the `subscriptions` UniversalDisposable. -/
structure SharedMembers where
  path : String
  workingDirectory : String
  hgStatusCache : List (String × StatusCodeNumber)
  hgDiffCache : List (String × DiffInfo)
  hgDiffCacheFilesUpdating : List String
  hgDiffCacheFilesToClear : List String
  revisionIdToFileChanges : LRU String RevisionFileChanges
  fileContentsAtRevisionIds : LRU String (List (String × String))
  fileContentsAtHead : LRU String String
  currentHeadId : Option String
  bookmarks : BookmarksValue
  isInConflict : Bool
  isDestroyed : Bool
  subscriptionsDisposed : Bool
deriving DecidableEq, Repr

/-- The state assembled by the constructor (lines 196-237 of the source):
empty caches, the three LRU caches with capacities 100/20/30, bookmarks
initially `{isLoading: true, bookmarks: []}`, flags false, no head id. -/
def initialSharedMembers (repoPath workingDir : String) : SharedMembers where
  path := repoPath
  workingDirectory := workingDir
  hgStatusCache := []
  hgDiffCache := []
  hgDiffCacheFilesUpdating := []
  hgDiffCacheFilesToClear := []
  revisionIdToFileChanges := { max := 100, entries := [] }
  fileContentsAtRevisionIds := { max := 20, entries := [] }
  fileContentsAtHead := { max := 30, entries := [] }
  currentHeadId := none
  bookmarks := { isLoading := true, bookmarks := [] }
  isInConflict := false
  isDestroyed := false
  subscriptionsDisposed := false

/-! Status classification predicates (source lines 844-870). -/

/-- Source `isStatusModified(status)`. -/
def isStatusModified : Option StatusCodeNumber → Bool
  | some .modified => true
  | _ => false

/-- Source `isStatusDeleted(status)`. -/
def isStatusDeleted : Option StatusCodeNumber → Bool
  | some .missing => true
  | some .removed => true
  | _ => false

/-- Source `isStatusNew(status)`. -/
def isStatusNew : Option StatusCodeNumber → Bool
  | some .added => true
  | some .untracked => true
  | _ => false

/-- Source `isStatusAdded(status)`. -/
def isStatusAdded : Option StatusCodeNumber → Bool
  | some .added => true
  | _ => false

/-- Source `isStatusUntracked(status)`. -/
def isStatusUntracked : Option StatusCodeNumber → Bool
  | some .untracked => true
  | _ => false

/-- Source `isStatusIgnored(status)`. -/
def isStatusIgnored : Option StatusCodeNumber → Bool
  | some .ignored => true
  | _ => false

/-- Source `getPath()` (line 602): the repository path. -/
def getPath (s : SharedMembers) : String :=
  s.path

/-- Source `_isPathWithinHgRepo(filePath)` (lines 787-792):
`filePath === this.getPath() || filePath.indexOf(this.getPath() + '/') === 0`. -/
def isPathWithinHgRepo (s : SharedMembers) (filePath : String) : Bool :=
  filePath == getPath s || strStartsWith filePath (getPath s ++ "/")

/-- Source `isPathModified(filePath)` (lines 710-721): falsy path gives
false; cache miss gives false; otherwise classify the cached status. -/
def isPathModified (s : SharedMembers) (filePath : Option String) : Bool :=
  if strFalsy filePath then false
  else
    match filePath with
    | none => false
    | some fp =>
      match mapGet s.hgStatusCache fp with
      | none => false
      | some st => isStatusModified (some st)

/-- Source `isPathNew(filePath)` (lines 725-736). -/
def isPathNew (s : SharedMembers) (filePath : Option String) : Bool :=
  if strFalsy filePath then false
  else
    match filePath with
    | none => false
    | some fp =>
      match mapGet s.hgStatusCache fp with
      | none => false
      | some st => isStatusNew (some st)

/-- Source `isPathAdded(filePath)` (lines 738-749). -/
def isPathAdded (s : SharedMembers) (filePath : Option String) : Bool :=
  if strFalsy filePath then false
  else
    match filePath with
    | none => false
    | some fp =>
      match mapGet s.hgStatusCache fp with
      | none => false
      | some st => isStatusAdded (some st)

/-- Source `isPathUntracked(filePath)` (lines 751-762). -/
def isPathUntracked (s : SharedMembers) (filePath : Option String) : Bool :=
  if strFalsy filePath then false
  else
    match filePath with
    | none => false
    | some fp =>
      match mapGet s.hgStatusCache fp with
      | none => false
      | some st => isStatusUntracked (some st)

/-- Source `isPathIgnored(filePath)` (lines 767-782): falsy path gives
false; a cache miss falls back to `_isPathWithinHgRepo`; otherwise
classify the cached status. -/
def isPathIgnored (s : SharedMembers) (filePath : Option String) : Bool :=
  if strFalsy filePath then false
  else
    match filePath with
    | none => false
    | some fp =>
      match mapGet s.hgStatusCache fp with
      | none => isPathWithinHgRepo s fp
      | some st => isStatusIgnored (some st)

/-- Modelled from the spec: atom `Directory.contains(filePath)` (the
Directory class is not under `src/`): whether the path lies inside the
directory, i.e. the directory path followed by the separator is a prefix
of the path. -/
def directoryContains (dir filePath : String) : Bool :=
  strStartsWith filePath (dir ++ "/")

/-- Source `isPathRelevantToRepository(filePath)` (lines 805-810):
`workingDirectory.contains(filePath) || workingDirectory.getPath() === filePath`. -/
def isPathRelevantToRepository (s : SharedMembers) (filePath : String) : Bool :=
  directoryContains s.workingDirectory filePath || s.workingDirectory == filePath

/-- Source `getCachedPathStatus(filePath)` (lines 822-832): falsy path
gives CLEAN; a truthy cached status is returned; otherwise CLEAN.  (All
status codes are truthy numbers, so the truthiness test is a hit test.) -/
def getCachedPathStatus (s : SharedMembers) (filePath : Option String) : StatusCodeNumber :=
  if strFalsy filePath then .clean
  else
    match filePath with
    | none => .clean
    | some fp =>
      match mapGet s.hgStatusCache fp with
      | some cachedStatus => cachedStatus
      | none => .clean

/-- Source `getPathStatus(filePath)` (lines 818-820): delegates to
`getCachedPathStatus`. -/
def getPathStatus (s : SharedMembers) (filePath : String) : StatusCodeNumber :=
  getCachedPathStatus s (some filePath)

/-- Source `_clearClientCache(filePaths)` (lines 1401-1419): with no paths,
replace the diff and status caches by empty maps and reset the
head-content cache; with explicit paths, copy the diff and status caches
and delete exactly those paths.  (It then emits `did-change-statuses`.) -/
def clearClientCache (s : SharedMembers) (filePaths : List String) : SharedMembers :=
  if filePaths.length = 0 then
    { s with
      hgDiffCache := []
      hgStatusCache := []
      fileContentsAtHead := s.fileContentsAtHead.reset }
  else
    { s with
      hgDiffCache := filePaths.foldl mapDelete s.hgDiffCache
      hgStatusCache := filePaths.foldl mapDelete s.hgStatusCache }

/-- A message from a mutating hg process (`LegacyProcessMessage`): either
an exit with a code, or other output. -/
inductive LegacyProcessMessage
  | exit (exitCode : Nat)
  | stdout (line : String)
  | stderr (line : String)
deriving DecidableEq, Repr

/-- Source `_clearOnSuccessExit(message, filePaths)` (lines 1335-1342):
clear the client cache exactly when the message is an exit with code 0. -/
def clearOnSuccessExit (s : SharedMembers) (message : LegacyProcessMessage)
    (filePaths : List String) : SharedMembers :=
  match message with
  | .exit 0 => clearClientCache s filePaths
  | _ => s

/-- Source `commit(message, filePaths)` (lines 1295-1306): the client-side
effect of each emitted process message is `_clearOnSuccessExit`. -/
def commitClientEffect (s : SharedMembers) (processMessage : LegacyProcessMessage)
    (filePaths : List String) : SharedMembers :=
  clearOnSuccessExit s processMessage filePaths

/-- Source `amend(message, amendMode, filePaths)` (lines 1308-1320): the
client-side effect of each emitted process message is
`_clearOnSuccessExit`. -/
def amendClientEffect (s : SharedMembers) (processMessage : LegacyProcessMessage)
    (filePaths : List String) : SharedMembers :=
  clearOnSuccessExit s processMessage filePaths

/-- Source `revert(filePaths, toRevision)` (lines 1344-1346): a plain
delegation to the service with no client-side handler, so the client
state is unchanged whatever the outcome. -/
def revertClientEffect (s : SharedMembers) (_filePaths : List String)
    (_toRevision : Option String) : SharedMembers :=
  s

/-- Source `checkoutReference(reference, create, options)` (lines
1059-1068): a plain delegation to the service with no client-side
handler. -/
def checkoutReferenceClientEffect (s : SharedMembers) (_reference : String)
    (_message : LegacyProcessMessage) : SharedMembers :=
  s

/-- Source `rebase(destination, source)` (lines 1378-1384): a plain
delegation to the service with no client-side handler. -/
def rebaseClientEffect (s : SharedMembers) (_destination : String)
    (_message : LegacyProcessMessage) : SharedMembers :=
  s

/-- Source `pull(options)` (lines 1392-1395): a plain delegation to the
service with no client-side handler. -/
def pullClientEffect (s : SharedMembers) (_message : LegacyProcessMessage) : SharedMembers :=
  s

/-- Source `createBookmark(name, revision)` (lines 1114-1116): a plain
delegation to the service with no client-side handler. -/
def createBookmarkClientEffect (s : SharedMembers) (_name : String)
    (_revision : Option String) : SharedMembers :=
  s

/-- Source `deleteBookmark(name)` (lines 1118-1120): a plain delegation to
the service with no client-side handler. -/
def deleteBookmarkClientEffect (s : SharedMembers) (_name : String) : SharedMembers :=
  s

/-- Source `renameBookmark(name, nextName)` (lines 1122-1124): a plain
delegation to the service with no client-side handler. -/
def renameBookmarkClientEffect (s : SharedMembers) (_name _nextName : String) : SharedMembers :=
  s

/-- Source `destroy()` (lines 480-494): a no-op when already destroyed;
otherwise set the destroyed flag, emit `did-destroy`, dispose the owned
subscriptions, and reset the two revision-keyed LRU caches.  Returns the
new state together with the events emitted by this call. -/
def destroy (s : SharedMembers) : SharedMembers × List RepoEvent :=
  if s.isDestroyed then (s, [])
  else
    ({ s with
        isDestroyed := true
        subscriptionsDisposed := true
        revisionIdToFileChanges := s.revisionIdToFileChanges.reset
        fileContentsAtRevisionIds := s.fileContentsAtRevisionIds.reset },
      [RepoEvent.didDestroy])

/-- Source `_conflictStateChanged(isInConflict)` (lines 500-503): record
the flag and emit `did-change-conflict-state` on every transition. -/
def conflictStateChanged (s : SharedMembers) (isInConflict : Bool) :
    SharedMembers × List RepoEvent :=
  ({ s with isInConflict := isInConflict }, [RepoEvent.didChangeConflictState])

/-- Source: the `shouldRevisionsUpdate` subscription handler (lines
389-393): refresh the external revisions cache (external, not part of
this state), reset the head-content cache, and replace the diff cache
with an empty map. -/
def onShouldRevisionsUpdate (s : SharedMembers) : SharedMembers :=
  { s with
    fileContentsAtHead := s.fileContentsAtHead.reset
    hgDiffCache := [] }

/-- Source `_getCurrentHeadId()` (lines 1018-1026): reuse the cached head
id when present; otherwise the outcome of `service.getHeadId()` is given
by `fetch` (`.error` = the observable errors, `.ok h` = it emits `h`,
where `h = none` models a null head id) and a fetched value is stored in
`currentHeadId` by the `do` side effect. -/
def getCurrentHeadId (s : SharedMembers) (fetch : Except Unit (Option String)) :
    Except Unit (Option String) × SharedMembers :=
  match s.currentHeadId with
  | some h => (.ok (some h), s)
  | none =>
    match fetch with
    | .ok h => (.ok h, { s with currentHeadId := h })
    | .error e => (.error e, s)

/-- Source: the filter at the start of `_updateDiffInfo` (lines 925-937).
Paths are processed in order; a path not relevant to the repository is
dropped, a path already in the in-flight guard set
(`hgDiffCacheFilesUpdating`) is dropped, and an accepted path is added to
the guard set synchronously before any suspension.  Returns the accepted
paths (`pathsToFetch`) and the state with the grown guard set. -/
def acceptDiffPaths : SharedMembers → List String → List String × SharedMembers
  | s, [] => ([], s)
  | s, p :: rest =>
    if isPathRelevantToRepository s p then
      if p ∈ s.hgDiffCacheFilesUpdating then
        acceptDiffPaths s rest
      else
        let s1 := { s with hgDiffCacheFilesUpdating := p :: s.hgDiffCacheFilesUpdating }
        ((acceptDiffPaths s1 rest).1.cons p, (acceptDiffPaths s1 rest).2)
    else
      acceptDiffPaths s rest

/-- Source `_updateDiffInfo(filePaths)` (lines 922-974).  The backend
outcomes are explicit: `headFetch` is the outcome of `service.getHeadId()`
(used only when no head id is cached) and `diffFetch` the outcome of the
`_getFileDiffs` batch (which itself memoizes head file contents; that
internal cache traffic is abstracted into the batch outcome).  Following
the source: accepted paths are guarded; an empty batch completes with an
empty map; an unresolvable (`none`) head id completes with an empty map;
on a successful batch the diff entries are merged into `hgDiffCache`,
deferred deletions are applied and their queue cleared, the guard is
released for the batch's paths, and `did-change-statuses` is emitted.
The success handler is an RxJS `do(onNext)`, so none of these side
effects run when the batch errors. -/
def updateDiffInfo (s : SharedMembers) (filePaths : List String)
    (headFetch : Except Unit (Option String))
    (diffFetch : Except Unit (List (String × DiffInfo))) :
    Except Unit (List (String × DiffInfo)) × SharedMembers × List RepoEvent :=
  let a := acceptDiffPaths s filePaths
  if a.1.length = 0 then (.ok [], a.2, [])
  else
    let hr := getCurrentHeadId a.2 headFetch
    match hr.1 with
    | .error e => (.error e, hr.2, [])
    | .ok none => (.ok [], hr.2, [])
    | .ok (some _) =>
      match diffFetch with
      | .error e => (.error e, hr.2, [])
      | .ok pathsToDiffInfo =>
        let merged := pathsToDiffInfo.foldl (fun mm e => mapSet mm e.1 e.2) hr.2.hgDiffCache
        let afterClear := hr.2.hgDiffCacheFilesToClear.foldl mapDelete merged
        (.ok pathsToDiffInfo,
          { hr.2 with
            hgDiffCache := afterClear
            hgDiffCacheFilesToClear := []
            hgDiffCacheFilesUpdating :=
              hr.2.hgDiffCacheFilesUpdating.filter (fun x => decide (x ∉ a.1)) },
          [RepoEvent.didChangeStatuses])

/-- Source: one debounced cycle of the `_observeStatus` pipeline (lines
448-467).  `fetchResult` is the outcome of the channel's fetch function.
The pipeline pushes `true` on `isFetchingPathStatuses` before the fetch;
a failed fetch is caught (logged) and replaced by the empty observable,
so the cycle produces no status map; the `finally` pushes `false` in
every case.  The returned pair is (the status-map emission of this cycle,
translated through `StatusCodeIdToNumber`; the `isFetchingPathStatuses`
emissions of this cycle).  The codomain has no error case: the catch is
what keeps a fetch failure from terminating the stream. -/
def observeStatusCycle
    (fetchResult : Except Unit (List (String × StatusCodeId))) :
    Option (List (String × StatusCodeNumber)) × List Bool :=
  match fetchResult with
  | .ok uriToStatusIds =>
    (some (uriToStatusIds.map fun e => (e.1, StatusCodeIdToNumber e.2)), [true, false])
  | .error _ => (none, [true, false])

/-- Return the first successful bookmark list among successive attempt
outcomes, if any. -/
def firstFetchSuccess : List (Except Unit (List BookmarkInfo)) → Option (List BookmarkInfo)
  | [] => none
  | .ok bookmarks :: _ => some bookmarks
  | .error _ :: rest => firstFetchSuccess rest

/-- Source: one debounced trigger of the `bookmarksUpdates` pipeline and
its subscriber (lines 361-387).  `attempts` lists the outcomes of the
successive `fetchBookmarks()` calls (a 15s timeout counts as an error);
`retry(2)` allows 2 retries after the initial attempt, so at most 3
outcomes are consumed.  On the first success the subscriber replaces the
BehaviorSubject value with `{isLoading: false, bookmarks}`; when every
attempt fails the `catch` logs and returns the empty observable, so the
subscriber never runs and the previous value stays. -/
def bookmarksUpdateStep (prev : BookmarksValue)
    (attempts : List (Except Unit (List BookmarkInfo))) : BookmarksValue :=
  match firstFetchSuccess (attempts.take 3) with
  | some bookmarks => { isLoading := false, bookmarks := bookmarks }
  | none => prev

/-- A concrete shared state used to evaluate the theorems: repository and
working directory `/repo`, two cached statuses, one cached diff entry and
a cached head id. -/
def sampleState : SharedMembers :=
  { initialSharedMembers "/repo" "/repo" with
    hgStatusCache := [("/repo/a", .modified), ("/repo/b", .added)]
    hgDiffCache := [("/repo/a", { added := 1, deleted := 2, lineDiffs := [] })]
    fileContentsAtHead := { max := 30, entries := [("/repo/a", "old")] }
    currentHeadId := some "h0" }

/-! Basic lemmas about the association-list map operations. -/

theorem mapGet_mapDelete_self {α β : Type} [DecidableEq α]
    (m : List (α × β)) (k : α) : mapGet (mapDelete m k) k = none := by
  induction m with
  | nil => rfl
  | cons e rest ih =>
    obtain ⟨k', v⟩ := e
    by_cases h : k' = k
    · simpa [mapDelete, h] using ih
    · simpa [mapDelete, mapGet, h] using ih

theorem mapGet_mapDelete_ne {α β : Type} [DecidableEq α]
    (m : List (α × β)) (d k : α) (h : d ≠ k) :
    mapGet (mapDelete m d) k = mapGet m k := by
  induction m with
  | nil => rfl
  | cons e rest ih =>
    obtain ⟨k', v⟩ := e
    by_cases hk : k' = k
    · have hkd : k' ≠ d := by rw [hk]; exact Ne.symm h
      simp [mapDelete, mapGet, hk, hkd, Ne.symm h]
    · by_cases hd : k' = d
      · simp [mapDelete, mapGet, hd, hk, ih, h]
      · simp [mapDelete, mapGet, hd, hk, ih]

theorem mapGet_foldl_mapDelete_not_mem {α β : Type} [DecidableEq α]
    (paths : List α) (m : List (α × β)) (k : α) (h : k ∉ paths) :
    mapGet (paths.foldl mapDelete m) k = mapGet m k := by
  induction paths generalizing m with
  | nil => rfl
  | cons d rest ih =>
    have hdk : d ≠ k := fun hd => h (by simp [hd])
    have hrest : k ∉ rest := fun hr => h (List.mem_cons_of_mem _ hr)
    calc mapGet ((d :: rest).foldl mapDelete m) k
        = mapGet (rest.foldl mapDelete (mapDelete m d)) k := rfl
      _ = mapGet (mapDelete m d) k := ih (mapDelete m d) hrest
      _ = mapGet m k := mapGet_mapDelete_ne m d k hdk

theorem mapGet_foldl_mapDelete_mem {α β : Type} [DecidableEq α]
    (paths : List α) (m : List (α × β)) (k : α) (h : k ∈ paths) :
    mapGet (paths.foldl mapDelete m) k = none := by
  induction paths generalizing m with
  | nil => cases h
  | cons d rest ih =>
    by_cases hr : k ∈ rest
    · exact ih (mapDelete m d) hr
    · have hdk : d = k := by
        rcases List.mem_cons.mp h with h1 | h2
        · exact h1.symm
        · exact absurd h2 hr
      calc mapGet ((d :: rest).foldl mapDelete m) k
          = mapGet (rest.foldl mapDelete (mapDelete m d)) k := rfl
        _ = mapGet (mapDelete m d) k := mapGet_foldl_mapDelete_not_mem rest _ k hr
        _ = none := by rw [hdk]; exact mapGet_mapDelete_self m k

theorem mapDelete_length_le {α β : Type} [DecidableEq α]
    (m : List (α × β)) (k : α) : (mapDelete m k).length ≤ m.length := by
  induction m with
  | nil => simp [mapDelete]
  | cons e rest ih =>
    obtain ⟨k', v⟩ := e
    by_cases h : k' = k
    · simp only [mapDelete, if_pos h, List.length_cons]
      exact Nat.le_succ_of_le ih
    · simp only [mapDelete, if_neg h, List.length_cons]
      exact Nat.succ_le_succ ih

theorem mapDelete_of_mapGet_none {α β : Type} [DecidableEq α]
    (m : List (α × β)) (k : α) (h : mapGet m k = none) : mapDelete m k = m := by
  induction m with
  | nil => rfl
  | cons e rest ih =>
    obtain ⟨k', v⟩ := e
    by_cases hk : k' = k
    · simp [mapGet, hk] at h
    · have hrest : mapGet rest k = none := by simpa [mapGet, hk] using h
      simp [mapDelete, hk, ih hrest]

theorem mapDelete_length_lt_of_mapGet_some {α β : Type} [DecidableEq α]
    (m : List (α × β)) (k : α) (v : β) (h : mapGet m k = some v) :
    (mapDelete m k).length < m.length := by
  induction m with
  | nil => simp [mapGet] at h
  | cons e rest ih =>
    obtain ⟨k', v'⟩ := e
    by_cases hk : k' = k
    · simp only [mapDelete, if_pos hk, List.length_cons]
      exact Nat.lt_succ_of_le (mapDelete_length_le rest k)
    · have hrest : mapGet rest k = some v := by simpa [mapGet, hk] using h
      simp only [mapDelete, if_neg hk, List.length_cons]
      exact Nat.succ_lt_succ (ih hrest)

/-! Lemmas about the LRU cache model. -/

theorem LRU.applyOp_max {α β : Type} [DecidableEq α]
    (c : LRU α β) (op : LRU.Op α β) : (c.applyOp op).max = c.max := by
  cases op with
  | get k =>
    simp only [LRU.applyOp, LRU.get]
    cases mapGet c.entries k <;> rfl
  | set k v => rfl
  | reset => rfl

theorem LRU.applyOp_bounded {α β : Type} [DecidableEq α]
    (c : LRU α β) (op : LRU.Op α β) (h : c.entries.length ≤ c.max) :
    (c.applyOp op).entries.length ≤ c.max := by
  cases op with
  | get k =>
    simp only [LRU.applyOp, LRU.get]
    cases hg : mapGet c.entries k with
    | none => exact h
    | some v =>
      simp only [List.length_cons]
      exact le_trans
        (Nat.succ_le_of_lt (mapDelete_length_lt_of_mapGet_some c.entries k v hg)) h
  | set k v =>
    simp only [LRU.applyOp, LRU.set]
    exact List.length_take_le _ _
  | reset => simp [LRU.applyOp, LRU.reset]

theorem LRU.applyAll_max {α β : Type} [DecidableEq α]
    (c : LRU α β) (ops : List (LRU.Op α β)) : (c.applyAll ops).max = c.max := by
  induction ops generalizing c with
  | nil => rfl
  | cons op rest ih =>
    calc (c.applyAll (op :: rest)).max
        = ((c.applyOp op).applyAll rest).max := rfl
      _ = (c.applyOp op).max := ih _
      _ = c.max := LRU.applyOp_max c op

theorem LRU.applyAll_bounded {α β : Type} [DecidableEq α]
    (c : LRU α β) (ops : List (LRU.Op α β)) (h : c.entries.length ≤ c.max) :
    (c.applyAll ops).entries.length ≤ c.max := by
  induction ops generalizing c with
  | nil => exact h
  | cons op rest ih =>
    have h1 : (c.applyOp op).entries.length ≤ (c.applyOp op).max := by
      rw [LRU.applyOp_max]; exact LRU.applyOp_bounded c op h
    have := ih (c.applyOp op) h1
    rwa [LRU.applyOp_max c op] at this

theorem take_pred_eq_dropLast {γ : Type} (l : List γ) :
    l.take (l.length - 1) = l.dropLast := by
  induction l with
  | nil => rfl
  | cons a t ih =>
    cases t with
    | nil => rfl
    | cons b t' =>
      calc (a :: b :: t').take ((a :: b :: t').length - 1)
          = a :: (b :: t').take ((b :: t').length - 1) := by
            simp [List.length_cons]
        _ = a :: (b :: t').dropLast := by rw [ih]
        _ = (a :: b :: t').dropLast := rfl

theorem LRU.set_evicts_lru {α β : Type} [DecidableEq α]
    (c : LRU α β) (k : α) (v : β)
    (hfull : c.entries.length = c.max) (hmiss : mapGet c.entries k = none)
    (hpos : 0 < c.max) :
    (c.set k v).entries = (k, v) :: c.entries.dropLast := by
  obtain ⟨n, hn⟩ : ∃ n, c.max = n + 1 :=
    ⟨c.max - 1, (Nat.succ_pred_eq_of_pos hpos).symm⟩
  have hdel : mapDelete c.entries k = c.entries :=
    mapDelete_of_mapGet_none c.entries k hmiss
  calc (c.set k v).entries
      = ((k, v) :: mapDelete c.entries k).take c.max := rfl
    _ = ((k, v) :: c.entries).take (n + 1) := by rw [hdel, hn]
    _ = (k, v) :: c.entries.take n := by rw [List.take_succ_cons]
    _ = (k, v) :: c.entries.take (c.entries.length - 1) := by
        rw [hfull, hn]; simp
    _ = (k, v) :: c.entries.dropLast := by rw [take_pred_eq_dropLast]

/-! Lemmas about the in-flight guard of the diff updater. -/

theorem acceptDiffPaths_guard_mono (s : SharedMembers) (ps : List String) (x : String)
    (h : x ∈ s.hgDiffCacheFilesUpdating) :
    x ∈ (acceptDiffPaths s ps).2.hgDiffCacheFilesUpdating := by
  induction ps generalizing s with
  | nil => exact h
  | cons p rest ih =>
    by_cases hrel : isPathRelevantToRepository s p = true
    · by_cases hmem : p ∈ s.hgDiffCacheFilesUpdating
      · simpa [acceptDiffPaths, hrel, hmem] using ih s h
      · have h1 : x ∈ ({ s with
            hgDiffCacheFilesUpdating := p :: s.hgDiffCacheFilesUpdating } :
            SharedMembers).hgDiffCacheFilesUpdating := List.mem_cons_of_mem p h
        simpa [acceptDiffPaths, hrel, hmem] using ih _ h1
    · simpa [acceptDiffPaths, hrel] using ih s h

theorem acceptDiffPaths_skips_inflight (s : SharedMembers) (ps : List String) (x : String)
    (h : x ∈ s.hgDiffCacheFilesUpdating) :
    x ∉ (acceptDiffPaths s ps).1 := by
  induction ps generalizing s with
  | nil => simp [acceptDiffPaths]
  | cons p rest ih =>
    by_cases hrel : isPathRelevantToRepository s p = true
    · by_cases hmem : p ∈ s.hgDiffCacheFilesUpdating
      · simpa [acceptDiffPaths, hrel, hmem] using ih s h
      · have hxp : x ≠ p := fun hx => hmem (hx ▸ h)
        have h1 : x ∈ ({ s with
            hgDiffCacheFilesUpdating := p :: s.hgDiffCacheFilesUpdating } :
            SharedMembers).hgDiffCacheFilesUpdating := List.mem_cons_of_mem p h
        intro hx
        rcases List.mem_cons.mp
          (by simpa [acceptDiffPaths, hrel, hmem] using hx) with h3 | h3
        · exact hxp h3
        · exact ih _ h1 h3
    · simpa [acceptDiffPaths, hrel] using ih s h

theorem acceptDiffPaths_accepted_in_guard (s : SharedMembers) (ps : List String)
    (p : String) (h : p ∈ (acceptDiffPaths s ps).1) :
    p ∈ (acceptDiffPaths s ps).2.hgDiffCacheFilesUpdating := by
  induction ps generalizing s with
  | nil => simp [acceptDiffPaths] at h
  | cons q rest ih =>
    by_cases hrel : isPathRelevantToRepository s q = true
    · by_cases hmem : q ∈ s.hgDiffCacheFilesUpdating
      · have h' : p ∈ (acceptDiffPaths s rest).1 := by
          simpa [acceptDiffPaths, hrel, hmem] using h
        simpa [acceptDiffPaths, hrel, hmem] using ih s h'
      · rcases List.mem_cons.mp
          (by simpa [acceptDiffPaths, hrel, hmem] using h) with h2 | h2
        · subst h2
          have hhead : p ∈ ({ s with
              hgDiffCacheFilesUpdating := p :: s.hgDiffCacheFilesUpdating } :
              SharedMembers).hgDiffCacheFilesUpdating := List.mem_cons_self p _
          simpa [acceptDiffPaths, hrel, hmem] using
            acceptDiffPaths_guard_mono _ rest p hhead
        · simpa [acceptDiffPaths, hrel, hmem] using ih _ h2
    · have h' : p ∈ (acceptDiffPaths s rest).1 := by
        simpa [acceptDiffPaths, hrel] using h
      simpa [acceptDiffPaths, hrel] using ih s h'

theorem getCurrentHeadId_snd_guard (s : SharedMembers)
    (f : Except Unit (Option String)) :
    (getCurrentHeadId s f).2.hgDiffCacheFilesUpdating = s.hgDiffCacheFilesUpdating := by
  rcases hs : s.currentHeadId with _ | h0
  · cases f <;> simp [getCurrentHeadId, hs]
  · simp [getCurrentHeadId, hs]

theorem getCurrentHeadId_fst_ok_some (s : SharedMembers) (h : String) :
    (getCurrentHeadId s (Except.ok (some h))).1 =
      Except.ok (some (s.currentHeadId.getD h)) := by
  rcases hs : s.currentHeadId with _ | h0 <;> simp [getCurrentHeadId, hs]

theorem updateDiffInfo_ok_guard_eq (s : SharedMembers) (filePaths : List String)
    (h : String) (m : List (String × DiffInfo))
    (hne : ¬(acceptDiffPaths s filePaths).1.length = 0) :
    (updateDiffInfo s filePaths (Except.ok (some h))
        (Except.ok m)).2.1.hgDiffCacheFilesUpdating =
      (acceptDiffPaths s filePaths).2.hgDiffCacheFilesUpdating.filter
        (fun x => decide (x ∉ (acceptDiffPaths s filePaths).1)) := by
  simp only [updateDiffInfo, if_neg hne, getCurrentHeadId_fst_ok_some]
  rw [getCurrentHeadId_snd_guard]

theorem updateDiffInfo_err_guard_eq (s : SharedMembers) (filePaths : List String)
    (h : String)
    (hne : ¬(acceptDiffPaths s filePaths).1.length = 0) :
    (updateDiffInfo s filePaths (Except.ok (some h))
        (Except.error ())).2.1.hgDiffCacheFilesUpdating =
      (acceptDiffPaths s filePaths).2.hgDiffCacheFilesUpdating := by
  simp only [updateDiffInfo, if_neg hne, getCurrentHeadId_fst_ok_some]
  rw [getCurrentHeadId_snd_guard]

theorem firstFetchSuccess_all_fail (l : List (Except Unit (List BookmarkInfo)))
    (h : ∀ r ∈ l, r = Except.error ()) : firstFetchSuccess l = none := by
  induction l with
  | nil => rfl
  | cons r rest ih =>
    have hr := h r (List.mem_cons_self r rest)
    subst hr
    exact ih fun x hx => h x (List.mem_cons_of_mem _ hx)

/-- C1 (amended): among the mutating operations, only `commit` and `amend`
trigger the cache-invalidation side effect (`_clearClientCache`) on a
successful exit; `revert`, `checkoutReference`, `rebase`, `pull` and the
bookmark mutations complete without any client-side cache clearing. -/
theorem mutating_ops_invalidation (s : SharedMembers) (msg : LegacyProcessMessage)
    (paths : List String) (name ref dest : String) (rev : Option String) :
    commitClientEffect s (LegacyProcessMessage.exit 0) paths = clearClientCache s paths ∧
    amendClientEffect s (LegacyProcessMessage.exit 0) paths = clearClientCache s paths ∧
    revertClientEffect s paths rev = s ∧
    checkoutReferenceClientEffect s ref msg = s ∧
    rebaseClientEffect s dest msg = s ∧
    pullClientEffect s msg = s ∧
    createBookmarkClientEffect s name rev = s ∧
    deleteBookmarkClientEffect s name = s ∧
    renameBookmarkClientEffect s name name = s :=
  ⟨rfl, rfl, rfl, rfl, rfl, rfl, rfl, rfl, rfl⟩

/-- C1 (counterexample): a successful `revert` of `/repo/a` leaves the
client state unchanged — the status cache still holds the path — whereas
the claimed cache invalidation would have removed it, so the resulting
state differs from the invalidated one. -/
theorem revert_success_no_invalidation :
    revertClientEffect sampleState ["/repo/a"] none = sampleState ∧
    mapGet sampleState.hgStatusCache "/repo/a" = some StatusCodeNumber.modified ∧
    mapGet (clearClientCache sampleState ["/repo/a"]).hgStatusCache "/repo/a" = none ∧
    revertClientEffect sampleState ["/repo/a"] none ≠
      clearClientCache sampleState ["/repo/a"] := by
  refine ⟨rfl, rfl, by decide, by decide⟩

/-- C2 (amended): when every bookmark-fetch attempt fails (the `retry(2)`
pipeline consumes at most 3 outcomes), the BehaviorSubject keeps its
previous value entirely: the bookmark list retains its previous value and
the loading flag also retains its previous value (it is set to false only
by a successful fetch). -/
theorem bookmarks_all_attempts_fail_keeps_value (prev : BookmarksValue)
    (attempts : List (Except Unit (List BookmarkInfo)))
    (h : ∀ r ∈ attempts, r = Except.error ()) :
    bookmarksUpdateStep prev attempts = prev := by
  have hall : ∀ r ∈ attempts.take 3, r = Except.error () :=
    fun r hr => h r (List.mem_of_mem_take hr)
  unfold bookmarksUpdateStep
  rw [firstFetchSuccess_all_fail _ hall]

/-- Witness for the amended bookmark-failure behaviour at a concrete
previous value and three concrete failures. -/
theorem bookmarks_all_attempts_fail_keeps_value_witness :
    bookmarksUpdateStep { isLoading := true, bookmarks := [] }
      [Except.error (), Except.error (), Except.error ()] =
      { isLoading := true, bookmarks := [] } :=
  bookmarks_all_attempts_fail_keeps_value _ _ (by simp)

/-- C2 (counterexample): starting from the initial value
`{isLoading: true, bookmarks: []}`, three failed fetch attempts leave the
BehaviorSubject untouched; in particular the loading flag is still true,
not false as the claim states. -/
theorem bookmarks_fail_loading_flag_counterexample :
    bookmarksUpdateStep { isLoading := true, bookmarks := [] }
      [Except.error (), Except.error (), Except.error ()] =
      { isLoading := true, bookmarks := [] } ∧
    (bookmarksUpdateStep { isLoading := true, bookmarks := [] }
      [Except.error (), Except.error (), Except.error ()]).isLoading ≠ false := by
  refine ⟨by decide, by decide⟩

/-- C3 (amended): a revision-changing trigger clears the head-content
cache and the diff cache but leaves the cached head-revision identifier
in place; the identifier, once fetched, persists (a cached head id is
returned without consulting the backend and without any state change), so
the next diff computation re-fetches head content against the same cached
head id. -/
theorem revisions_update_invalidation (s : SharedMembers) :
    (onShouldRevisionsUpdate s).fileContentsAtHead.entries = [] ∧
    (onShouldRevisionsUpdate s).hgDiffCache = [] ∧
    (onShouldRevisionsUpdate s).currentHeadId = s.currentHeadId ∧
    ∀ (h : String) (fetch : Except Unit (Option String)),
      s.currentHeadId = some h →
      getCurrentHeadId s fetch = (Except.ok (some h), s) := by
  refine ⟨rfl, rfl, rfl, ?_⟩
  intro h fetch hh
  simp [getCurrentHeadId, hh]

/-- Witness for the amended revision-trigger behaviour at the concrete
sample state. -/
theorem revisions_update_invalidation_witness :
    (onShouldRevisionsUpdate sampleState).hgDiffCache = [] ∧
    getCurrentHeadId sampleState (Except.error ()) =
      (Except.ok (some "h0"), sampleState) :=
  ⟨(revisions_update_invalidation sampleState).2.1,
   (revisions_update_invalidation sampleState).2.2.2 "h0" (Except.error ()) rfl⟩

/-- C3 (counterexample): at a state whose head id is cached as `h0`, the
revision-changing trigger resets the head-content cache and the diff
cache, but the head-revision identifier is not cleared together with
them: it is still `h0`, not `none`. -/
theorem revisions_update_headid_not_cleared :
    (onShouldRevisionsUpdate sampleState).fileContentsAtHead.entries = [] ∧
    (onShouldRevisionsUpdate sampleState).hgDiffCache = [] ∧
    (onShouldRevisionsUpdate sampleState).currentHeadId = some "h0" ∧
    (onShouldRevisionsUpdate sampleState).currentHeadId ≠ none := by
  refine ⟨rfl, rfl, rfl, by decide⟩

/-- C4 (amended): a path already present in the in-flight guard set is
skipped by a new diff-update request; every accepted path is removed from
the guard set when the diff batch completes successfully, but when the
batch fails the accepted paths remain in the guard set (the release runs
in the success handler only). -/
theorem updateDiffInfo_inflight_guard (s : SharedMembers) (filePaths : List String)
    (h : String) (m : List (String × DiffInfo)) :
    (∀ x ∈ s.hgDiffCacheFilesUpdating, x ∉ (acceptDiffPaths s filePaths).1) ∧
    (∀ p ∈ (acceptDiffPaths s filePaths).1,
      p ∉ (updateDiffInfo s filePaths (Except.ok (some h))
        (Except.ok m)).2.1.hgDiffCacheFilesUpdating) ∧
    (∀ p ∈ (acceptDiffPaths s filePaths).1,
      p ∈ (updateDiffInfo s filePaths (Except.ok (some h))
        (Except.error ())).2.1.hgDiffCacheFilesUpdating) := by
  refine ⟨fun x hx => acceptDiffPaths_skips_inflight s filePaths x hx, ?_, ?_⟩
  · intro p hp
    by_cases hlen : (acceptDiffPaths s filePaths).1.length = 0
    · rw [List.length_eq_zero.mp hlen] at hp
      cases hp
    · rw [updateDiffInfo_ok_guard_eq s filePaths h m hlen]
      intro hmem
      have h2 := (List.mem_filter.mp hmem).2
      simp only [decide_eq_true_eq] at h2
      exact h2 hp
  · intro p hp
    by_cases hlen : (acceptDiffPaths s filePaths).1.length = 0
    · rw [List.length_eq_zero.mp hlen] at hp
      cases hp
    · rw [updateDiffInfo_err_guard_eq s filePaths h hlen]
      exact acceptDiffPaths_accepted_in_guard s filePaths p hp

/-- Witness for the amended guard behaviour: a concrete accepted path is
out of the guard set after a successful batch. -/
theorem updateDiffInfo_inflight_guard_witness :
    "/repo/c" ∉ (updateDiffInfo sampleState ["/repo/c"] (Except.ok (some "h0"))
      (Except.ok [("/repo/c", { added := 3, deleted := 0, lineDiffs := [] })])
      ).2.1.hgDiffCacheFilesUpdating :=
  (updateDiffInfo_inflight_guard sampleState ["/repo/c"] "h0"
    [("/repo/c", { added := 3, deleted := 0, lineDiffs := [] })]).2.1
    "/repo/c" (by decide)

/-- C4 (counterexample): a diff batch for the accepted path `/repo/c`
whose fetch fails leaves the path in the in-flight guard set, so the
guard is not released on failure as the claim states. -/
theorem updateDiffInfo_guard_not_released :
    "/repo/c" ∈ (updateDiffInfo sampleState ["/repo/c"] (Except.ok (some "h0"))
      (Except.error ())).2.1.hgDiffCacheFilesUpdating ∧
    (updateDiffInfo sampleState ["/repo/c"] (Except.ok (some "h0"))
      (Except.error ())).1 = Except.error () := by
  refine ⟨by decide, rfl⟩

/-- C5 (confirmed): in one debounced status-pipeline cycle, the in-flight
indicator emissions are `[true, false]` whatever the fetch outcome — it
returns to false after the fetch completes, success or failure — and the
cycle produces no status update exactly when the fetch failed (the
failure is caught and converted into an empty emission, never an error,
so the stream is not terminated). -/
theorem observeStatus_error_policy (r : Except Unit (List (String × StatusCodeId))) :
    (observeStatusCycle r).2 = [true, false] ∧
    ((observeStatusCycle r).1 = none ↔ r = Except.error ()) := by
  cases r with
  | ok a => simp [observeStatusCycle]
  | error e => cases e; simp [observeStatusCycle]

/-- C6 (confirmed): clearing the client cache with a non-empty path list
removes exactly those paths from the status cache and the diff cache,
leaves every other entry of both caches unchanged and leaves the
head-content cache untouched; clearing with an empty path list empties
the status cache, the diff cache and the head-content cache entirely. -/
theorem clearClientCache_frame (s : SharedMembers) (paths : List String) :
    (paths ≠ [] →
      (∀ p ∈ paths,
        mapGet (clearClientCache s paths).hgStatusCache p = none ∧
        mapGet (clearClientCache s paths).hgDiffCache p = none) ∧
      (∀ p, p ∉ paths →
        mapGet (clearClientCache s paths).hgStatusCache p =
          mapGet s.hgStatusCache p ∧
        mapGet (clearClientCache s paths).hgDiffCache p =
          mapGet s.hgDiffCache p) ∧
      (clearClientCache s paths).fileContentsAtHead = s.fileContentsAtHead) ∧
    (paths = [] →
      (clearClientCache s paths).hgStatusCache = [] ∧
      (clearClientCache s paths).hgDiffCache = [] ∧
      (clearClientCache s paths).fileContentsAtHead.entries = []) := by
  constructor
  · intro hne
    have hlen : ¬paths.length = 0 := fun h0 => hne (List.length_eq_zero.mp h0)
    simp only [clearClientCache, if_neg hlen]
    exact ⟨fun p hp =>
        ⟨mapGet_foldl_mapDelete_mem paths s.hgStatusCache p hp,
         mapGet_foldl_mapDelete_mem paths s.hgDiffCache p hp⟩,
      fun p hp =>
        ⟨mapGet_foldl_mapDelete_not_mem paths s.hgStatusCache p hp,
         mapGet_foldl_mapDelete_not_mem paths s.hgDiffCache p hp⟩,
      trivial⟩
  · intro he
    subst he
    exact ⟨rfl, rfl, rfl⟩

/-- Witness for the cache-clearing frame property at a concrete state:
the targeted path is removed, the other path keeps its status, and an
empty path list empties the status cache. -/
theorem clearClientCache_frame_witness :
    mapGet (clearClientCache sampleState ["/repo/a"]).hgStatusCache "/repo/a" = none ∧
    mapGet (clearClientCache sampleState ["/repo/a"]).hgStatusCache "/repo/b" =
      mapGet sampleState.hgStatusCache "/repo/b" ∧
    (clearClientCache sampleState []).hgStatusCache = [] :=
  ⟨(((clearClientCache_frame sampleState ["/repo/a"]).1 (by decide)).1
      "/repo/a" (by decide)).1,
   (((clearClientCache_frame sampleState ["/repo/a"]).1 (by decide)).2.1
      "/repo/b" (by decide)).1,
   ((clearClientCache_frame sampleState []).2 rfl).1⟩

/-- C7 (confirmed): `destroy` on a live state emits exactly one
`did-destroy` notification, sets the destroyed flag, disposes the owned
subscriptions and clears the two revision-keyed bounded caches; a second
`destroy` returns the same state with no events at all — it is an
exception-free no-op, so two calls have the same observable effect as
one. -/
theorem destroy_idempotent (s : SharedMembers) (h : s.isDestroyed = false) :
    (destroy s).2 = [RepoEvent.didDestroy] ∧
    (destroy s).1.isDestroyed = true ∧
    (destroy s).1.subscriptionsDisposed = true ∧
    (destroy s).1.revisionIdToFileChanges.entries = [] ∧
    (destroy s).1.fileContentsAtRevisionIds.entries = [] ∧
    destroy (destroy s).1 = ((destroy s).1, []) := by
  simp [destroy, h, LRU.reset]

/-- Witness for destroy idempotence at the concrete sample state. -/
theorem destroy_idempotent_witness :
    destroy (destroy sampleState).1 = ((destroy sampleState).1, []) :=
  (destroy_idempotent sampleState rfl).2.2.2.2.2

/-- C8 (confirmed): the synchronous path-status lookup returns the CLEAN
status code for a null path, for an empty path, and for every path not
present in the status cache. -/
theorem pathStatus_clean_on_miss (s : SharedMembers) :
    getCachedPathStatus s none = StatusCodeNumber.clean ∧
    getCachedPathStatus s (some "") = StatusCodeNumber.clean ∧
    ∀ p : String, mapGet s.hgStatusCache p = none →
      getPathStatus s p = StatusCodeNumber.clean := by
  refine ⟨rfl, rfl, ?_⟩
  intro p hp
  unfold getPathStatus getCachedPathStatus
  by_cases he : p = ""
  · subst he; rfl
  · simp [strFalsy, he, hp]

/-- Witness for the CLEAN-on-miss property at a path absent from the
sample status cache. -/
theorem pathStatus_clean_on_miss_witness :
    getPathStatus sampleState "/repo/zzz" = StatusCodeNumber.clean :=
  (pathStatus_clean_on_miss sampleState).2.2 "/repo/zzz" (by decide)

/-- C9 (confirmed): the three bounded caches are constructed with
capacities 20 (file content at revision), 30 (file content at head) and
100 (file-change-set at revision); after any sequence of get/set/reset
operations each holds no more entries than its capacity; and a write to
a full cache under a fresh key evicts exactly the least-recently-used
entry (the recency-order last), keeping all the others. -/
theorem bounded_caches_lru (repoPath workingDir : String)
    (ops1 : List (LRU.Op String (List (String × String))))
    (ops2 : List (LRU.Op String String))
    (ops3 : List (LRU.Op String RevisionFileChanges)) :
    ((initialSharedMembers repoPath workingDir).fileContentsAtRevisionIds.max = 20 ∧
      ((initialSharedMembers repoPath workingDir).fileContentsAtRevisionIds.applyAll
        ops1).entries.length ≤ 20) ∧
    ((initialSharedMembers repoPath workingDir).fileContentsAtHead.max = 30 ∧
      ((initialSharedMembers repoPath workingDir).fileContentsAtHead.applyAll
        ops2).entries.length ≤ 30) ∧
    ((initialSharedMembers repoPath workingDir).revisionIdToFileChanges.max = 100 ∧
      ((initialSharedMembers repoPath workingDir).revisionIdToFileChanges.applyAll
        ops3).entries.length ≤ 100) ∧
    ∀ (c : LRU String String) (k v : String),
      c.entries.length = c.max → mapGet c.entries k = none → 0 < c.max →
      (c.set k v).entries = (k, v) :: c.entries.dropLast := by
  refine ⟨⟨rfl, ?_⟩, ⟨rfl, ?_⟩, ⟨rfl, ?_⟩,
    fun c k v h1 h2 h3 => LRU.set_evicts_lru c k v h1 h2 h3⟩
  · exact LRU.applyAll_bounded _ ops1 (Nat.zero_le _)
  · exact LRU.applyAll_bounded _ ops2 (Nat.zero_le _)
  · exact LRU.applyAll_bounded _ ops3 (Nat.zero_le _)

/-- Witness for the bounded-cache property: two writes stay within the
capacity, and a write to a full one-slot cache evicts its only (least
recently used) entry. -/
theorem bounded_caches_lru_witness :
    ((initialSharedMembers "/repo" "/repo").fileContentsAtRevisionIds.applyAll
      [LRU.Op.set "r1" [], LRU.Op.set "r2" []]).entries.length ≤ 20 ∧
    (LRU.set { max := 1, entries := [("a", "x")] } "b" "y").entries = [("b", "y")] := by
  refine ⟨(bounded_caches_lru "/repo" "/repo"
    [LRU.Op.set "r1" [], LRU.Op.set "r2" []] [] []).1.2, ?_⟩
  have h := (bounded_caches_lru "/repo" "/repo" [] [] []).2.2.2
    { max := 1, entries := [("a", "x")] } "b" "y" rfl rfl (by decide)
  simpa using h

/-- C10 (confirmed): for a null or empty path all five path predicates
return false; for a path missing from the status cache, `isPathIgnored`
returns true exactly when the path equals the repository path or starts
with the repository path followed by `/`, while `isPathModified`,
`isPathNew`, `isPathAdded` and `isPathUntracked` return false. -/
theorem path_predicates_on_miss (s : SharedMembers) :
    (isPathModified s none = false ∧ isPathNew s none = false ∧
      isPathAdded s none = false ∧ isPathUntracked s none = false ∧
      isPathIgnored s none = false) ∧
    (isPathModified s (some "") = false ∧ isPathNew s (some "") = false ∧
      isPathAdded s (some "") = false ∧ isPathUntracked s (some "") = false ∧
      isPathIgnored s (some "") = false) ∧
    ∀ p : String, p ≠ "" → mapGet s.hgStatusCache p = none →
      isPathIgnored s (some p) =
        (p == s.path || strStartsWith p (s.path ++ "/")) ∧
      isPathModified s (some p) = false ∧ isPathNew s (some p) = false ∧
      isPathAdded s (some p) = false ∧ isPathUntracked s (some p) = false := by
  refine ⟨⟨rfl, rfl, rfl, rfl, rfl⟩, ⟨rfl, rfl, rfl, rfl, rfl⟩, ?_⟩
  intro p hne hp
  refine ⟨?_, ?_, ?_, ?_, ?_⟩ <;>
    simp [isPathIgnored, isPathModified, isPathNew, isPathAdded,
      isPathUntracked, isPathWithinHgRepo, getPath, strFalsy, hne, hp]

/-- Witness for the cache-miss path predicates at a concrete path inside
the repository. -/
theorem path_predicates_on_miss_witness :
    isPathIgnored sampleState (some "/repo/sub/x") = true ∧
    isPathModified sampleState (some "/repo/sub/x") = false := by
  have h := (path_predicates_on_miss sampleState).2.2 "/repo/sub/x"
    (by decide) (by decide)
  exact ⟨by rw [h.1]; decide, h.2.1⟩

end HgClient
